import Mathlib

/-!
Verification of the Decomplicator task-execution engine.

This file gives a shallow embedding, in Lean 4, of the concrete task kinds of
`src/task_impl.py` and of the persisted dependency-completion list of
`src/files.py`, and proves (or refutes) the frozen behavioural claims about
them.  Python strings are modelled as `List Char` (or `String` where
convenient), Python `int` as `Nat`/`Int`, float arithmetic on progress
fractions exactly over `ℚ`, and fallible operations as `Except`/`Option`
values with explicit error-injection oracles.
-/

namespace Decomplicator

/-- Low-level Python exceptions that can escape a task body uncaught.
`osError` carries the `strerror` text; `indexError` models a list index
out of range. -/
inductive PyError where
  | osError (strerror : String)
  | indexError
  deriving DecidableEq, Repr

/-- Modelled from the spec: the settling of a leaf task body (the `Task`
base class lives in `task_base.py`, which is not part of the sources here;
spec §4.1/§7 describe it).  A body that returns normally settles SUCCESS; a
`TaskFailureException` settles FAILURE with its message; a
`TaskCancelledException` settles CANCELLED; any other exception propagates
raw out of the task body (treated as fatal by a top-level handler). -/
inductive Outcome where
  | success
  | failure (msg : String)
  | cancelled
  | raw (e : PyError)
  deriving DecidableEq, Repr

/-- Whether an outcome is one of the two structured signals of spec §4.2
(failure with a message, or cancellation); `success` and raw exception
propagation are not signals. -/
def Outcome.isSignal : Outcome → Bool
  | .failure _ => true
  | .cancelled => true
  | _ => false

/-! ### `files.py`: the persisted dependency done-list -/

/-- Characters removed by Python's `str.strip()`: exactly those `c` with
`c.isspace()` true, i.e. U+0009–U+000D, U+001C–U+001F, space, U+0085,
U+00A0, U+1680, U+2000–U+200A, U+2028, U+2029, U+202F, U+205F and
U+3000. -/
def isPySpace (c : Char) : Bool :=
  (9 ≤ c.toNat && c.toNat ≤ 13) || (28 ≤ c.toNat && c.toNat ≤ 32)
    || c.toNat = 0x85 || c.toNat = 0xa0 || c.toNat = 0x1680
    || (0x2000 ≤ c.toNat && c.toNat ≤ 0x200a)
    || c.toNat = 0x2028 || c.toNat = 0x2029 || c.toNat = 0x202f
    || c.toNat = 0x205f || c.toNat = 0x3000

/-- Python `str.strip()`: remove leading and trailing whitespace. -/
def pyStrip (cs : List Char) : List Char :=
  ((cs.dropWhile isPySpace).reverse.dropWhile isPySpace).reverse

/-- The line terminators of Python `str.splitlines()`: `\n`, `\v` (U+000B),
`\f` (U+000C), `\r`, U+001C–U+001E, U+0085, U+2028 and U+2029 (with the
pair `\r\n` consumed as one terminator by `splitlinesCharList`). -/
def isLineBreak (c : Char) : Bool :=
  c = '\n' || c = '\r' || c = '\x0b' || c = '\x0c'
    || c.toNat = 28 || c.toNat = 29 || c.toNat = 30
    || c.toNat = 0x85 || c.toNat = 0x2028 || c.toNat = 0x2029

/-- Python `str.splitlines()`: each terminator character ends a line (the
pair `\r\n` counts as a single terminator), a trailing segment without a
terminator forms a final line, and the empty string has no lines. -/
def splitlinesCharList : List Char → List (List Char)
  | [] => []
  | c :: cs =>
    if c = '\r' then
      match cs with
      | '\n' :: cs2 => [] :: splitlinesCharList cs2
      | [] => [] :: splitlinesCharList []
      | d :: cs2 => [] :: splitlinesCharList (d :: cs2)
    else if isLineBreak c then [] :: splitlinesCharList cs
    else
      match splitlinesCharList cs with
      | [] => [[c]]
      | l :: ls => (c :: l) :: ls

/-- `files.get_project_dependencies_done` / the read half of
`files.mark_project_dependency_done` (files.py lines 106-107 and 120-121):
`[line.strip() for line in file_text.splitlines() if line]` — filter out
falsy (empty) lines first, then strip each remaining line. -/
def parseDeps (t : List Char) : List (List Char) :=
  ((splitlinesCharList t).filter (fun l => !l.isEmpty)).map pyStrip

/-- Python `"\n".join(...)` on a list of lines. -/
def joinNL : List (List Char) → List Char
  | [] => []
  | [e] => e
  | e :: es => e ++ '\n' :: joinNL es

/-- `files.mark_project_dependency_done` (files.py lines 110-126), acting on
the content of the `dependencies.txt` marker file for one environment:
`none` models an absent file.  Reads the done-list, and if `dep` is not
already a member, appends it and rewrites the file as the newline-join of
the parsed list plus `dep`; otherwise the file is left untouched. -/
def mark_project_dependency_done (content : Option (List Char)) (dep : List Char) :
    Option (List Char) :=
  let deps_finished := match content with
    | none => []
    | some file_text => parseDeps file_text
  if dep ∈ deps_finished then content
  else some (joinNL (deps_finished ++ [dep]))

/-- The done-list as later readers parse it from a marker-file state. -/
def depsOf (content : Option (List Char)) : List (List Char) :=
  match content with
  | none => []
  | some t => parseDeps t

/-! ### `files.py` with I/O error injection, and `MarkDependencyCompleteTask` -/

/-- The observable state of the marker file for one environment together with
error injection for the underlying `read_text`/`write_text` calls: a `some`
value in `readErr`/`writeErr` is the `OSError` that the corresponding call
raises. -/
structure MarkerIO where
  content : Option (List Char)
  readErr : Option String
  writeErr : Option String

/-- `files.mark_project_dependency_done` with the fallibility of its
`read_text` (files.py line 120) and `write_text` (line 126) calls made
explicit: these calls raise `OSError` when the oracle injects one, and
nothing in `files.py` catches it.  On success, returns the new marker-file
content. -/
def mark_project_dependency_done_io (io : MarkerIO) (dep : List Char) :
    Except PyError (Option (List Char)) :=
  match io.content with
  | none =>
    if dep ∈ ([] : List (List Char)) then .ok none
    else
      match io.writeErr with
      | some e => .error (.osError e)
      | none => .ok (some (joinNL [dep]))
  | some file_text =>
    match io.readErr with
    | some e => .error (.osError e)
    | none =>
      let deps_finished := parseDeps file_text
      if dep ∈ deps_finished then .ok (some file_text)
      else
        match io.writeErr with
        | some e => .error (.osError e)
        | none => .ok (some (joinNL (deps_finished ++ [dep])))

/-- `MarkDependencyCompleteTask.run_impl` (task_impl.py lines 325-326): the
body is a bare call to `files.mark_project_dependency_done`; there is no
`try`/`except` around it, so an `OSError` raised by the marker-file I/O
leaves the task body as a raw exception (`Outcome.raw`), while a normal
return settles SUCCESS.  Returns the outcome and the resulting marker-file
content. -/
def markDependencyCompleteTaskRun (io : MarkerIO) (dep : List Char) :
    Outcome × Option (List Char) :=
  match mark_project_dependency_done_io io dep with
  | .ok c => (.success, c)
  | .error e => (.raw e, io.content)

/-! ### `DownloadAndValidateTask` -/

/-- What `urllib.request.urlretrieve` would do if the download task calls it:
deliver the payload bytes, raise `TaskCancelledException` out of the report
callback, or raise one of the network errors distinguished by the handlers
in task_impl.py lines 122-139.  `urlError` carries the looked-up
`socket.errorTab` text when the reason is a known `gaierror` (line 133),
and the raw reason text otherwise; `otherError` is any exception not
explicitly handled (caught, cleaned up after, and re-raised at lines
137-139). -/
inductive FetchOutcome where
  | ok (data : List Nat)
  | cancelled
  | contentTooShortOrConn
  | httpError (msg : String)
  | urlError (gaiTab : Option String) (reason : String)
  | otherError (e : PyError)

/-- The world a single run of the download task sees: the destination file
content before the run (`none` if absent), the behaviour of the network if
it is consulted, and an injected `OSError` for the integrity-check read of
the destination (task_impl.py lines 148-152). -/
structure DownloadWorld where
  destContent : Option (List Nat)
  fetch : FetchOutcome
  readErr : Option String

/-- Result of a download-task run: the settling outcome, the destination
file content after the run, and whether the network was consulted at all. -/
structure DownloadResult where
  outcome : Outcome
  destContent : Option (List Nat)
  networkUsed : Bool
  deriving DecidableEq, Repr

/-- The integrity-check tail of `DownloadAndValidateTask.run_impl`
(task_impl.py lines 145-159): open the destination, compute its SHA-256
digest (`hashlib.file_digest`, abstracted as the function `sha256`), and
compare with the expected hash; on mismatch delete the destination
(`unlink`, line 156) and fail; an `OSError` while reading fails with the
file kept.  `fileSource` is the "downloaded"/"cached" wording picked at
lines 140/143. -/
def downloadCheck (sha256 : List Nat → String) (expected_hash : String)
    (data : List Nat) (readErr : Option String) (net : Bool) (fileSource : String) :
    DownloadResult :=
  match readErr with
  | some e =>
    ⟨.failure ("Error reading the " ++ fileSource ++ " file.\n\n" ++ e), some data, net⟩
  | none =>
    if sha256 data ≠ expected_hash then
      ⟨.failure ("The " ++ fileSource ++ " file did not pass an integrity check, and was deleted."),
        none, net⟩
    else ⟨.success, some data, net⟩

/-- `DownloadAndValidateTask.run_impl` (task_impl.py lines 112-159).  If the
destination does not exist the archive is downloaded (every failure branch
of the `try` first deletes the partial destination); if it exists the
download is skipped (`cached`).  Either way the integrity check then runs.
Creation of the destination's parent directory (line 113) is not modelled:
no claim concerns it. -/
def downloadAndValidateTaskRun (sha256 : List Nat → String) (expected_hash : String)
    (w : DownloadWorld) : DownloadResult :=
  match w.destContent with
  | none =>
    match w.fetch with
    | .ok data => downloadCheck sha256 expected_hash data w.readErr true "downloaded"
    | .cancelled => ⟨.cancelled, none, true⟩
    | .contentTooShortOrConn =>
      ⟨.failure "Download failed. Your network connection may have been interrupted.", none, true⟩
    | .httpError m => ⟨.failure ("Download failed.\n\n" ++ m), none, true⟩
    | .urlError gaiTab reason =>
      ⟨.failure ("Download failed.\n\n" ++ gaiTab.getD reason), none, true⟩
    | .otherError e => ⟨.raw e, none, true⟩
  | some data => downloadCheck sha256 expected_hash data w.readErr false "cached"

/-- `DownloadAndValidateTask._report_callback` (task_impl.py lines 103-110):
raises `TaskCancelledException` when the cancel flag is set; otherwise
reports indeterminate progress (`none`) when the reported total file size
is not positive, and the fraction `block_count * block_size / file_size`
otherwise.  `block_count` and `block_size` are the non-negative values
`urlretrieve` supplies; `file_size` may be `-1` when the content length is
unknown, hence `Int`.  Float arithmetic is modelled exactly over `ℚ`. -/
def reportCallback (cancelled : Bool) (block_count block_size : Nat) (file_size : Int) :
    Except Unit (Option ℚ) :=
  if cancelled then .error ()
  else if file_size ≤ 0 then .ok none
  else .ok (some ((block_count * block_size : ℚ) / (file_size : ℚ)))

/-! ### `FileExtractionTask._extract_zip` -/

/-- One observable event of the zip-extraction loop: a progress report or the
extraction of the member at a given position. -/
inductive ZipEvent where
  | progress (q : ℚ)
  | extractMember (i : Nat)
  deriving DecidableEq, Repr

/-- The loop of `FileExtractionTask._extract_zip` (task_impl.py lines
200-204) over the archive's member list, as the trace of events it emits:
for each member, first a check of the cancel flag (a set flag raises
`TaskCancelledException` and stops the loop), then a progress report of
`i / member_count`, then the extraction of member `i`.  The `i`-indexed
enumeration is made explicit; `n` is the total member count.  Extraction
errors (`BadZipFile`/`OSError`, lines 205-208) are not injected: the claim
concerns a valid archive. -/
def extractZipGo (cancelled : Bool) (n : Nat) : Nat → Nat → List ZipEvent
  | _, 0 => []
  | i, m + 1 =>
    if cancelled then []
    else .progress ((i : ℚ) / (n : ℚ)) :: .extractMember i :: extractZipGo cancelled n (i + 1) m

/-- The event trace of `FileExtractionTask._extract_zip` on an archive with
`memberCount` members. -/
def extractZipTrace (cancelled : Bool) (memberCount : Nat) : List ZipEvent :=
  extractZipGo cancelled memberCount 0 memberCount

/-- The progress values contained in a zip-extraction event trace, in
emission order. -/
def progressValues (tr : List ZipEvent) : List ℚ :=
  tr.filterMap (fun ev => match ev with
    | .progress q => some q
    | _ => none)

/-! ### `FileOperationSequenceTask` -/

/-- Python `str.lower()`: lowercase each character (`command[0].lower()` at
task_impl.py line 260).  Defined by character-wise mapping so that it
evaluates by kernel reduction. -/
def pyLower (s : String) : String :=
  ⟨s.data.map Char.toLower⟩

/-- Filesystem mutations the file-operation task can perform, recorded as
events (their effect on the filesystem is not itself modelled; the claims
concern whether and when they happen).  The constructors correspond to the
primitives called in task_impl.py lines 272-291. -/
inductive FsMutation where
  | mkdirParents (p : String)
  | mkdir (p : String)
  | copyFile (src dst : String)
  | copyTree (src dst : String)
  | moveFile (src dst : String)
  | moveTreeContents (src dst : String)
  | rmdir (p : String)
  | unlink (p : String)
  | rmtree (p : String)
  deriving DecidableEq, Repr

/-- `pathlib` parent of a path string: everything before the final slash
(`"."` when there is no slash, as in pathlib for a bare name). -/
def parentPath (p : String) : String :=
  let rev := p.data.reverse.dropWhile (fun c => c ≠ '/')
  match rev with
  | [] => "."
  | _ :: tail => ⟨tail.reverse⟩

/-- The mutations performed by one file operation once it has passed the
parameter-count check, following the branches of task_impl.py lines
272-291.  `is_file_target` is the earlier `args[0].is_file()` probe; an
operation name other than copy/move/delete performs nothing (no branch
matches). -/
def execOp (operation_name : String) (is_file_target : Bool) (args : List String) :
    List FsMutation :=
  if operation_name = "copy" then
    match args with
    | [a0, a1] =>
      if is_file_target then [.mkdirParents (parentPath a1), .copyFile a0 a1]
      else [.copyTree a0 a1]
    | _ => []
  else if operation_name = "move" then
    match args with
    | [a0, a1] =>
      if is_file_target then [.mkdirParents (parentPath a1), .moveFile a0 a1]
      else [.mkdir a1, .moveTreeContents a0 a1, .rmdir a0]
    | _ => []
  else if operation_name = "delete" then
    match args with
    | [a0] => if is_file_target then [.unlink a0] else [.rmtree a0]
    | _ => []
  else []

/-- The loop body of `FileOperationSequenceTask.run_impl` (task_impl.py lines
256-298) over the remaining operations.  `isFile` is the filesystem's
answer to `Path.is_file` (a read-only probe); `i` is the current index and
`n` the total operation count (the denominator of the progress report at
line 298).  Faithful to the source order: `command[0]` and `args[0]` are
accessed (raising a raw `IndexError` on an empty list) before the
parameter-count check at lines 266-267.  `OSError` during an operation
(lines 292-296) is not injected: the operations themselves are assumed to
succeed.  Returns the outcome, the mutation events in order, and the
progress reports in order. -/
def runFileOpsGo (isFile : String → Bool) (cancelled : Bool) (base : String) (n : Nat) :
    Nat → List (List String) → Outcome × List FsMutation × List ℚ
  | _, [] => (.success, [], [])
  | i, command :: rest =>
    if cancelled then (.cancelled, [], [])
    else
      match command with
      | [] => (.raw .indexError, [], [])
      | name :: operands =>
        let operation_name := pyLower name
        let args := operands.map (fun f => base ++ "/" ++ f)
        match args with
        | [] => (.raw .indexError, [], [])
        | a0 :: _ =>
          let is_file_target := isFile a0
          let arg_count := if operation_name = "delete" then 1 else 2
          if args.length ≠ arg_count then
            (.failure ("Wrong number of parameters to \"" ++ operation_name ++ "\" operation"),
              [], [])
          else
            let evs := execOp operation_name is_file_target args
            let r := runFileOpsGo isFile cancelled base n (i + 1) rest
            (r.1, evs ++ r.2.1, ((i : ℚ) / (n : ℚ)) :: r.2.2)

/-- `FileOperationSequenceTask.run_impl` on a full operation list. -/
def runFileOps (isFile : String → Bool) (cancelled : Bool) (base : String)
    (ops : List (List String)) : Outcome × List FsMutation × List ℚ :=
  runFileOpsGo isFile cancelled base ops.length 0 ops

/-! ### A small heap model for `FileOperationSequenceTask.__init__` -/

/-- A heap of Python `list[str]` objects; an address is an index into
`cells`. -/
structure PyHeap where
  cells : List (List String)

/-- Dereference one inner-list address. -/
def readCell (h : PyHeap) (a : Nat) : List String :=
  h.cells.getD a []

/-- The value of a Python `list[list[str]]` held as a list of addresses of
its inner lists. -/
def readListOfLists (h : PyHeap) (outer : List Nat) : List (List String) :=
  outer.map (readCell h)

/-- In-place mutation of one inner list through its address (what a caller
aliasing the original operation list could do after the task is
constructed). -/
def writeCell (h : PyHeap) (a : Nat) (v : List String) : PyHeap :=
  ⟨h.cells.set a v⟩

/-- `copy.deepcopy(file_operations)` as performed by
`FileOperationSequenceTask.__init__` (task_impl.py line 249): fresh inner
cells are allocated holding copies of the current values, and the task
stores the fresh addresses.  Returns the extended heap and the stored
addresses. -/
def deepcopyOps (h : PyHeap) (outer : List Nat) : PyHeap × List Nat :=
  (⟨h.cells ++ readListOfLists h outer⟩,
    (List.range outer.length).map (fun i => i + h.cells.length))

/-! ### `SetupGitRepoTask` clone-progress estimation -/

/-- The four phase prefixes of task_impl.py line 367 (the first one matches
git's `remote: Counting objects` lines). -/
def progress_types : List String :=
  ["remote", "Receiving objects", "Resolving deltas", "Updating files"]

/-- Python `re.search(r"(\d+)%", line)`: find the leftmost maximal run of
ASCII digits that is immediately followed by `%`, and return its numeric
value (the regex group). -/
def findPercent : List Char → Option Nat
  | [] => none
  | c :: rest =>
    if c.isDigit then
      match (c :: rest).dropWhile Char.isDigit with
      | '%' :: _ =>
        some (((c :: rest).takeWhile Char.isDigit).foldl
          (fun n d => 10 * n + (d.toNat - '0'.toNat)) 0)
      | _ => findPercent rest
    else findPercent rest

/-- Python `line_text.startswith(start_text)` (task_impl.py line 387),
defined by character-list prefix comparison so that it evaluates by kernel
reduction. -/
def pyStartsWith (start_text line_text : String) : Bool :=
  start_text.data.isPrefixOf line_text.data

/-- The clone-progress loop of `SetupGitRepoTask.run_impl` (task_impl.py
lines 385-394) for one output line: walk the phase list accumulating 25
per non-matching phase; on the first phase that is a prefix of the line,
add a quarter of the parsed percentage (if any) and report the total
divided by 100; report nothing if no phase matches.  Float arithmetic is
modelled exactly over `ℚ`. -/
def cloneProgressLoop : List String → ℚ → String → Option ℚ
  | [], _, _ => none
  | start_text :: rest, current_progress, line_text =>
    if pyStartsWith start_text line_text then
      some ((current_progress +
        (match findPercent line_text.data with
          | some p => (p : ℚ) / 4
          | none => 0)) / 100)
    else cloneProgressLoop rest (current_progress + 25) line_text

/-- Progress reported for one line of clone output (`none` when the line
matches no phase and nothing is reported). -/
def cloneLineProgress (line_text : String) : Option ℚ :=
  cloneProgressLoop progress_types 0 line_text

/-! ### Lemmas about stripping -/

lemma dropWhile_head_not {α : Type} (p : α → Bool) (l : List α) :
    ∀ c, (l.dropWhile p).head? = some c → p c = false := by
  induction l with
  | nil => simp
  | cons a l ih =>
    intro c hc
    by_cases h : p a = true
    · rw [List.dropWhile_cons, if_pos h] at hc
      exact ih c hc
    · rw [List.dropWhile_cons, if_neg h] at hc
      simp only [List.head?_cons, Option.some.injEq] at hc
      subst hc
      exact Bool.not_eq_true _ ▸ h

lemma dropWhile_idem {α : Type} (p : α → Bool) (l : List α) :
    (l.dropWhile p).dropWhile p = l.dropWhile p := by
  cases hd : l.dropWhile p with
  | nil => simp
  | cons a t =>
    have ha : p a = false := dropWhile_head_not p l a (by rw [hd]; rfl)
    rw [List.dropWhile_cons, ha]
    simp

lemma dropWhile_suffix {α : Type} (p : α → Bool) (l : List α) : l.dropWhile p <:+ l := by
  induction l with
  | nil => simp
  | cons a l ih =>
    by_cases h : p a = true
    · rw [List.dropWhile_cons, if_pos h]
      exact ih.trans (List.suffix_cons a l)
    · rw [List.dropWhile_cons, if_neg h]

lemma dropWhile_eq_self_head {α : Type} (p : α → Bool) (l : List α)
    (h : l.dropWhile p = l) : ∀ c, l.head? = some c → p c = false := by
  intro c hc
  cases l with
  | nil => simp at hc
  | cons a t =>
    have hac : a = c := by simpa using hc
    by_contra hp
    have hp' : p a = true := by
      cases hb : p a
      · rw [hac] at hb
        exact absurd hb hp
      · rfl
    rw [List.dropWhile_cons, if_pos hp'] at h
    have hlen : (t.dropWhile p).length ≤ t.length := (List.dropWhile_sublist _).length_le
    rw [h] at hlen
    simp at hlen

lemma pyStrip_eq_of_stripped (l : List Char)
    (h1 : l.dropWhile isPySpace = l) (h2 : l.reverse.dropWhile isPySpace = l.reverse) :
    pyStrip l = l := by
  unfold pyStrip
  rw [h1, h2, List.reverse_reverse]

lemma pyStrip_stripped_right (l : List Char) :
    (pyStrip l).reverse.dropWhile isPySpace = (pyStrip l).reverse := by
  unfold pyStrip
  rw [List.reverse_reverse]
  exact dropWhile_idem _ _

lemma pyStrip_stripped_left (l : List Char) :
    (pyStrip l).dropWhile isPySpace = pyStrip l := by
  unfold pyStrip
  cases hBr : ((l.dropWhile isPySpace).reverse.dropWhile isPySpace).reverse with
  | nil => simp [hBr]
  | cons c t =>
    obtain ⟨s, hs⟩ := dropWhile_suffix isPySpace (l.dropWhile isPySpace).reverse
    have h3 : ((l.dropWhile isPySpace).reverse.dropWhile isPySpace).reverse ++ s.reverse
        = l.dropWhile isPySpace := by
      simpa using congrArg List.reverse hs
    have hhead : (l.dropWhile isPySpace).head? = some c := by
      rw [← h3, hBr]
      rfl
    have hAfix : (l.dropWhile isPySpace).dropWhile isPySpace = l.dropWhile isPySpace :=
      dropWhile_idem _ _
    have hc : isPySpace c = false := dropWhile_eq_self_head _ _ hAfix c hhead
    rw [List.dropWhile_cons, hc]
    simp

lemma pyStrip_idem (l : List Char) : pyStrip (pyStrip l) = pyStrip l :=
  pyStrip_eq_of_stripped _ (pyStrip_stripped_left l) (pyStrip_stripped_right l)

lemma mem_pyStrip (c : Char) (l : List Char) (h : c ∈ pyStrip l) : c ∈ l := by
  unfold pyStrip at h
  rw [List.mem_reverse] at h
  have h2 : c ∈ (l.dropWhile isPySpace).reverse := (dropWhile_suffix _ _).subset h
  rw [List.mem_reverse] at h2
  exact (dropWhile_suffix _ _).subset h2

/-! ### Lemmas about line splitting and joining -/

lemma splitlines_eq_nil : splitlinesCharList [] = [] := rfl

lemma splitlines_eq_crlf (cs : List Char) :
    splitlinesCharList ('\r' :: '\n' :: cs) = [] :: splitlinesCharList cs := by
  rw [splitlinesCharList.eq_def]
  dsimp only
  rw [if_pos rfl]
  rfl

lemma splitlines_eq_cr_nil : splitlinesCharList ['\r'] = [[]] := by
  rw [splitlinesCharList.eq_def]
  dsimp only
  rw [if_pos rfl]
  rfl

lemma splitlines_eq_cr (d : Char) (cs : List Char) (hd : d ≠ '\n') :
    splitlinesCharList ('\r' :: d :: cs) = [] :: splitlinesCharList (d :: cs) := by
  rw [splitlinesCharList.eq_def]
  dsimp only
  rw [if_pos rfl]
  split
  next cs2 h =>
    injection h with h1 h2
    exact absurd h1 hd
  next h =>
    simp at h
  next d2 cs2 h =>
    injection h with h1 h2
    subst h1
    subst h2
    rfl

lemma splitlines_eq_break (c : Char) (cs : List Char) (hcr : c ≠ '\r')
    (hbr : isLineBreak c = true) :
    splitlinesCharList (c :: cs) = [] :: splitlinesCharList cs := by
  rw [splitlinesCharList.eq_def]
  dsimp only
  rw [if_neg hcr, if_pos hbr]

lemma splitlines_eq_other (c : Char) (cs : List Char) (hbr : isLineBreak c = false) :
    splitlinesCharList (c :: cs)
      = match splitlinesCharList cs with
        | [] => [[c]]
        | l :: ls => (c :: l) :: ls := by
  have hcr : c ≠ '\r' := by
    intro h
    rw [h] at hbr
    exact absurd hbr (by decide)
  rw [splitlinesCharList.eq_def]
  dsimp only
  rw [if_neg hcr, if_neg (by simp [hbr])]

lemma mem_splitlines_no_break (t : List Char) :
    ∀ l ∈ splitlinesCharList t, ∀ c ∈ l, isLineBreak c = false := by
  induction t using splitlinesCharList.induct with
  | case1 => simp [splitlinesCharList]
  | case2 cs2 ih =>
    rw [splitlines_eq_crlf]
    intro l hl
    rcases List.mem_cons.mp hl with rfl | hl
    · intro c hc
      simp at hc
    · exact ih l hl
  | case3 ih =>
    rw [splitlines_eq_cr_nil]
    intro l hl
    have hl2 : l = [] := by simpa using hl
    subst hl2
    intro c hc
    simp at hc
  | case4 d cs2 hd ih =>
    rw [splitlines_eq_cr d cs2 (fun h => hd h)]
    intro l hl
    rcases List.mem_cons.mp hl with rfl | hl
    · intro c hc
      simp at hc
    · exact ih l hl
  | case5 c cs hcr hbr ih =>
    rw [splitlines_eq_break c cs hcr hbr]
    intro l hl
    rcases List.mem_cons.mp hl with rfl | hl
    · intro c2 hc
      simp at hc
    · exact ih l hl
  | case6 c cs hcr hbr heq ih =>
    simp only [Bool.not_eq_true] at hbr
    rw [splitlines_eq_other c cs hbr, heq]
    intro l hl c2 hc
    have hl2 : l = [c] := by simpa using hl
    subst hl2
    have hc2 : c2 = c := by simpa using hc
    subst hc2
    exact hbr
  | case7 c cs hcr hbr l0 ls heq ih =>
    simp only [Bool.not_eq_true] at hbr
    rw [splitlines_eq_other c cs hbr, heq]
    intro l2 hl2 c2 hcm
    rcases List.mem_cons.mp hl2 with rfl | hl2
    · rcases List.mem_cons.mp hcm with rfl | hcm
      · exact hbr
      · exact ih l0 (by rw [heq]; exact List.mem_cons_self _ _) c2 hcm
    · exact ih l2 (by rw [heq]; exact List.mem_cons_of_mem _ hl2) c2 hcm

lemma splitlines_of_no_break (e : List Char) (hne : e ≠ [])
    (he : ∀ c ∈ e, isLineBreak c = false) : splitlinesCharList e = [e] := by
  induction e with
  | nil => exact absurd rfl hne
  | cons c e ih =>
    rw [splitlines_eq_other c e (he c (List.mem_cons_self _ _))]
    by_cases hE : e = []
    · subst hE
      rfl
    · rw [ih hE (fun d hd => he d (List.mem_cons_of_mem _ hd))]

lemma splitlines_append_newline (e t : List Char)
    (he : ∀ c ∈ e, isLineBreak c = false) :
    splitlinesCharList (e ++ '\n' :: t) = e :: splitlinesCharList t := by
  induction e with
  | nil =>
    rw [List.nil_append, splitlines_eq_break '\n' t (by decide) (by decide)]
  | cons c e ih =>
    rw [List.cons_append,
      splitlines_eq_other c (e ++ '\n' :: t) (he c (List.mem_cons_self _ _)),
      ih (fun d hd => he d (List.mem_cons_of_mem _ hd))]

lemma joinNL_cons_of_ne_nil (e : List Char) (es : List (List Char)) (h : es ≠ []) :
    joinNL (e :: es) = e ++ '\n' :: joinNL es := by
  cases es with
  | nil => exact absurd rfl h
  | cons f fs => rfl

lemma splitlines_joinNL (es : List (List Char))
    (hnl : ∀ e ∈ es, ∀ c ∈ e, isLineBreak c = false)
    (hlast : es.getLast? ≠ some []) :
    splitlinesCharList (joinNL es) = es := by
  induction es with
  | nil => rfl
  | cons e es ih =>
    cases es with
    | nil =>
      have hne : e ≠ [] := by
        intro h
        apply hlast
        rw [h]
        rfl
      show splitlinesCharList (joinNL [e]) = [e]
      rw [show joinNL [e] = e from rfl]
      exact splitlines_of_no_break e hne (hnl e (List.mem_cons_self _ _))
    | cons f fs =>
      rw [joinNL_cons_of_ne_nil e (f :: fs) (by simp),
        splitlines_append_newline e _ (hnl e (List.mem_cons_self _ _)),
        ih (fun x hx => hnl x (List.mem_cons_of_mem _ hx))
          (by rw [← List.getLast?_cons_cons]; exact hlast)]

lemma splitlines_joinNL_empty_last (ds : List (List Char))
    (hnl : ∀ e ∈ ds, ∀ c ∈ e, isLineBreak c = false)
    (hne : ∀ e ∈ ds, e ≠ []) :
    splitlinesCharList (joinNL (ds ++ [[]])) = ds := by
  induction ds with
  | nil => rfl
  | cons d ds ih =>
    rw [List.cons_append, joinNL_cons_of_ne_nil d (ds ++ [[]]) (by simp),
      splitlines_append_newline d _ (hnl d (List.mem_cons_self _ _)),
      ih (fun x hx => hnl x (List.mem_cons_of_mem _ hx))
        (fun x hx => hne x (List.mem_cons_of_mem _ hx))]

/-! ### Behaviour of the done-list marking operation -/

lemma map_pyStrip_fixed (ds : List (List Char)) (h : ∀ x ∈ ds, pyStrip x = x) :
    ds.map pyStrip = ds := by
  induction ds with
  | nil => rfl
  | cons a t ih =>
    rw [List.map_cons, h a (List.mem_cons_self _ _),
      ih (fun x hx => h x (List.mem_cons_of_mem _ hx))]

lemma parseDeps_entry_no_break (t : List Char) (l : List Char) (hl : l ∈ parseDeps t) :
    ∀ c ∈ l, isLineBreak c = false := by
  intro c hc
  unfold parseDeps at hl
  rw [List.mem_map] at hl
  obtain ⟨l0, hl0, rfl⟩ := hl
  rw [List.mem_filter] at hl0
  exact mem_splitlines_no_break t l0 hl0.1 c (mem_pyStrip c l0 hc)

lemma parseDeps_entry_stripped (t : List Char) (l : List Char) (hl : l ∈ parseDeps t) :
    pyStrip l = l := by
  unfold parseDeps at hl
  rw [List.mem_map] at hl
  obtain ⟨l0, _, rfl⟩ := hl
  exact pyStrip_idem l0

lemma depsOf_entry_no_break (c : Option (List Char)) (l : List Char) (hl : l ∈ depsOf c) :
    ∀ ch ∈ l, isLineBreak ch = false := by
  cases c with
  | none => simp [depsOf] at hl
  | some t => exact parseDeps_entry_no_break t l hl

lemma depsOf_entry_stripped (c : Option (List Char)) (l : List Char) (hl : l ∈ depsOf c) :
    pyStrip l = l := by
  cases c with
  | none => simp [depsOf] at hl
  | some t => exact parseDeps_entry_stripped t l hl

lemma mark_eq (c : Option (List Char)) (dep : List Char) :
    mark_project_dependency_done c dep
      = if dep ∈ depsOf c then c else some (joinNL (depsOf c ++ [dep])) := by
  cases c <;> rfl

lemma depsOf_mark_of_not_mem (c : Option (List Char)) (dep : List Char)
    (hne : dep ≠ []) (hnl : ∀ ch ∈ dep, isLineBreak ch = false) (hst : pyStrip dep = dep)
    (hmem : dep ∉ depsOf c) :
    depsOf (mark_project_dependency_done c dep)
      = (depsOf c).filter (fun l => !l.isEmpty) ++ [dep] := by
  rw [mark_eq, if_neg hmem]
  show parseDeps (joinNL (depsOf c ++ [dep])) = _
  unfold parseDeps
  rw [splitlines_joinNL (depsOf c ++ [dep])
    (by
      intro e he
      rcases List.mem_append.mp he with he | he
      · exact depsOf_entry_no_break c e he
      · have : e = dep := by simpa using he
        subst this
        exact hnl)
    (by
      rw [List.getLast?_concat]
      intro h
      exact hne (by simpa using h))]
  rw [List.filter_append]
  have hdep_filter : [dep].filter (fun l => !l.isEmpty) = [dep] := by
    have : dep.isEmpty = false := by
      cases dep with
      | nil => exact absurd rfl hne
      | cons a t => rfl
    simp [List.filter, this]
  rw [hdep_filter, List.map_append]
  rw [map_pyStrip_fixed ((depsOf c).filter (fun l => !l.isEmpty))
    (fun x hx => depsOf_entry_stripped c x ((List.mem_filter.mp hx).1))]
  rw [show [dep].map pyStrip = [pyStrip dep] from rfl, hst]

lemma depsOf_mark_empty_not_mem (c : Option (List Char)) (hmem : [] ∉ depsOf c) :
    depsOf (mark_project_dependency_done c []) = depsOf c := by
  rw [mark_eq, if_neg hmem]
  show parseDeps (joinNL (depsOf c ++ [[]])) = _
  unfold parseDeps
  rw [splitlines_joinNL_empty_last (depsOf c) (fun e he => depsOf_entry_no_break c e he)
    (fun e he h => hmem (h ▸ he))]
  have hfil : (depsOf c).filter (fun l => !l.isEmpty) = depsOf c := by
    rw [List.filter_eq_self]
    intro a ha
    cases hA : a with
    | nil =>
      subst hA
      exact absurd ha hmem
    | cons x xs => rfl
  rw [hfil, map_pyStrip_fixed (depsOf c) (fun x hx => depsOf_entry_stripped c x hx)]

/-! ### Lemmas about the marker-completion task -/

lemma mark_io_no_errors (c : Option (List Char)) (dep : List Char) :
    mark_project_dependency_done_io ⟨c, none, none⟩ dep
      = .ok (mark_project_dependency_done c dep) := by
  cases c with
  | none =>
    unfold mark_project_dependency_done_io mark_project_dependency_done
    dsimp only
    rw [if_neg (by simp : ¬ dep ∈ ([] : List (List Char))),
      if_neg (by simp : ¬ dep ∈ ([] : List (List Char)))]
    rfl
  | some t =>
    unfold mark_project_dependency_done_io mark_project_dependency_done
    dsimp only
    by_cases h : dep ∈ parseDeps t
    · rw [if_pos h, if_pos h]
    · rw [if_neg h, if_neg h]

lemma markRun_success_or_raw (io : MarkerIO) (dep : List Char) :
    (markDependencyCompleteTaskRun io dep).1 = .success
    ∨ ∃ s, (markDependencyCompleteTaskRun io dep).1 = .raw (.osError s) := by
  obtain ⟨c, re, we⟩ := io
  cases c with
  | none =>
    cases we with
    | none =>
      left
      unfold markDependencyCompleteTaskRun mark_project_dependency_done_io
      dsimp only
      rw [if_neg (by simp : ¬ dep ∈ ([] : List (List Char)))]
    | some e =>
      right
      refine ⟨e, ?_⟩
      unfold markDependencyCompleteTaskRun mark_project_dependency_done_io
      dsimp only
      rw [if_neg (by simp : ¬ dep ∈ ([] : List (List Char)))]
  | some t =>
    cases re with
    | some e => exact Or.inr ⟨e, rfl⟩
    | none =>
      by_cases h : dep ∈ parseDeps t
      · left
        unfold markDependencyCompleteTaskRun mark_project_dependency_done_io
        dsimp only
        rw [if_pos h]
      · cases we with
        | none =>
          left
          unfold markDependencyCompleteTaskRun mark_project_dependency_done_io
          dsimp only
          rw [if_neg h]
        | some e =>
          right
          refine ⟨e, ?_⟩
          unfold markDependencyCompleteTaskRun mark_project_dependency_done_io
          dsimp only
          rw [if_neg h]

/-! ### Lemmas about the download task -/

lemma downloadRun_cached (sha256 : List Nat → String) (expected_hash : String)
    (w : DownloadWorld) (data : List Nat) (h : w.destContent = some data) :
    downloadAndValidateTaskRun sha256 expected_hash w
      = downloadCheck sha256 expected_hash data w.readErr false "cached" := by
  unfold downloadAndValidateTaskRun
  rw [h]

lemma downloadRun_fetched (sha256 : List Nat → String) (expected_hash : String)
    (w : DownloadWorld) (data : List Nat) (h1 : w.destContent = none)
    (h2 : w.fetch = .ok data) :
    downloadAndValidateTaskRun sha256 expected_hash w
      = downloadCheck sha256 expected_hash data w.readErr true "downloaded" := by
  unfold downloadAndValidateTaskRun
  rw [h1, h2]

lemma downloadCheck_match (sha256 : List Nat → String) (expected_hash : String)
    (data : List Nat) (net : Bool) (fileSource : String)
    (h : sha256 data = expected_hash) :
    downloadCheck sha256 expected_hash data none net fileSource
      = ⟨.success, some data, net⟩ := by
  unfold downloadCheck
  rw [if_neg (by simp [h])]

lemma downloadCheck_mismatch (sha256 : List Nat → String) (expected_hash : String)
    (data : List Nat) (net : Bool) (fileSource : String)
    (h : sha256 data ≠ expected_hash) :
    downloadCheck sha256 expected_hash data none net fileSource
      = ⟨.failure ("The " ++ fileSource ++ " file did not pass an integrity check, and was deleted."),
          none, net⟩ := by
  unfold downloadCheck
  rw [if_pos h]

lemma downloadCheck_networkUsed (sha256 : List Nat → String) (expected_hash : String)
    (data : List Nat) (readErr : Option String) (net : Bool) (fileSource : String) :
    (downloadCheck sha256 expected_hash data readErr net fileSource).networkUsed = net := by
  unfold downloadCheck
  cases readErr with
  | some e => rfl
  | none =>
    by_cases h : sha256 data ≠ expected_hash
    · rw [if_pos h]
    · rw [if_neg h]

/-! ### Lemmas about zip-extraction progress -/

lemma extractZipGo_eq_bind (n : Nat) :
    ∀ (m i : Nat), extractZipGo false n i m
      = (List.range' i m).flatMap
          (fun j => [.progress ((j : ℚ) / (n : ℚ)), .extractMember j]) := by
  intro m
  induction m with
  | zero => intro i; rfl
  | succ m ih =>
    intro i
    rw [show extractZipGo false n i (m + 1)
        = .progress ((i : ℚ) / (n : ℚ)) :: .extractMember i :: extractZipGo false n (i + 1) m
      from rfl, ih (i + 1), List.range'_succ]
    rfl

lemma progressValues_append (t1 t2 : List ZipEvent) :
    progressValues (t1 ++ t2) = progressValues t1 ++ progressValues t2 :=
  List.filterMap_append t1 t2 _

lemma progressValues_bind_pair (n : Nat) (L : List Nat) :
    progressValues (L.flatMap
        (fun j => [.progress ((j : ℚ) / (n : ℚ)), .extractMember j]))
      = L.map (fun (j : Nat) => (j : ℚ) / (n : ℚ)) := by
  induction L with
  | nil => rfl
  | cons a L ih =>
    rw [List.flatMap_cons, progressValues_append, ih]
    rfl

/-! ### Lemmas about the heap model -/

lemma map_getD_range {β : Type} (l : List β) (d : β) :
    (List.range l.length).map (fun i => l.getD i d) = l := by
  induction l with
  | nil => rfl
  | cons a t ih =>
    rw [show (a :: t).length = t.length + 1 from rfl, List.range_succ_eq_map,
      List.map_cons, List.map_map]
    have htail : (List.range t.length).map ((fun i => (a :: t).getD i d) ∘ Nat.succ)
        = (List.range t.length).map (fun i => t.getD i d) := by
      apply List.map_congr_left
      intro i _
      rfl
    rw [htail, ih]
    rfl

lemma readList_deepcopy (h : PyHeap) (outer : List Nat) :
    readListOfLists (deepcopyOps h outer).1 (deepcopyOps h outer).2
      = readListOfLists h outer := by
  unfold deepcopyOps readListOfLists readCell
  rw [List.map_map]
  have hlen : (outer.map (readCell h)).length = outer.length := List.length_map _ _
  calc (List.range outer.length).map
        (fun i => (h.cells ++ outer.map (readCell h)).getD (i + h.cells.length) [])
      = (List.range outer.length).map (fun i => (outer.map (readCell h)).getD i []) := by
        apply List.map_congr_left
        intro i _
        rw [List.getD_append_right _ _ _ _ (by omega)]
        congr 1
        omega
    _ = outer.map (readCell h) := by
        rw [← hlen]
        exact map_getD_range _ _


/-! ### Step equations and bounds for the file-operation loop -/

lemma runFileOpsGo_nil (isFile : String → Bool) (base : String) (n i : Nat) :
    runFileOpsGo isFile false base n i [] = (.success, [], []) := rfl

lemma runFileOpsGo_empty_command (isFile : String → Bool) (base : String) (n i : Nat)
    (rest : List (List String)) :
    runFileOpsGo isFile false base n i ([] :: rest) = (.raw .indexError, [], []) := rfl

lemma runFileOpsGo_no_operands (isFile : String → Bool) (base : String) (n i : Nat)
    (name : String) (rest : List (List String)) :
    runFileOpsGo isFile false base n i ([name] :: rest) = (.raw .indexError, [], []) := rfl

lemma runFileOpsGo_cons (isFile : String → Bool) (base : String) (n i : Nat)
    (name o0 : String) (os : List String) (rest : List (List String)) :
    runFileOpsGo isFile false base n i ((name :: o0 :: os) :: rest)
      = if ((o0 :: os).map (fun f => base ++ "/" ++ f)).length
            ≠ (if pyLower name = "delete" then 1 else 2) then
          (.failure ("Wrong number of parameters to \"" ++ pyLower name ++ "\" operation"),
            [], [])
        else
          ((runFileOpsGo isFile false base n (i + 1) rest).1,
            execOp (pyLower name) (isFile (base ++ "/" ++ o0))
                ((o0 :: os).map (fun f => base ++ "/" ++ f))
              ++ (runFileOpsGo isFile false base n (i + 1) rest).2.1,
            ((i : ℚ) / (n : ℚ)) :: (runFileOpsGo isFile false base n (i + 1) rest).2.2) := rfl

lemma runFileOpsGo_reports_bound (isFile : String → Bool) (base : String) (n : Nat) :
    ∀ (ops : List (List String)) (i : Nat), i + ops.length ≤ n →
      ∀ q ∈ (runFileOpsGo isFile false base n i ops).2.2, 0 ≤ q ∧ q < 1 := by
  intro ops
  induction ops with
  | nil =>
    intro i _ q hq
    rw [runFileOpsGo_nil] at hq
    simp at hq
  | cons command rest ih =>
    intro i hlen q hq
    cases command with
    | nil =>
      rw [runFileOpsGo_empty_command] at hq
      simp at hq
    | cons name operands =>
      cases operands with
      | nil =>
        rw [runFileOpsGo_no_operands] at hq
        simp at hq
      | cons o0 os =>
        rw [runFileOpsGo_cons] at hq
        by_cases hc : ((o0 :: os).map (fun f => base ++ "/" ++ f)).length
            ≠ (if pyLower name = "delete" then 1 else 2)
        · rw [if_pos hc] at hq
          simp at hq
        · rw [if_neg hc] at hq
          have hq2 : q = (i : ℚ) / (n : ℚ)
              ∨ q ∈ (runFileOpsGo isFile false base n (i + 1) rest).2.2 := by
            simpa using hq
          rcases hq2 with rfl | hq2
          · have hin : i < n := by
              rw [List.length_cons] at hlen
              omega
            have hn0 : 0 < n := by omega
            have hn : (0 : ℚ) < (n : ℚ) := by exact_mod_cast hn0
            refine ⟨by positivity, ?_⟩
            rw [div_lt_one hn]
            exact_mod_cast hin
          · exact ih (i + 1) (by rw [List.length_cons] at hlen; omega) q hq2

/-! ### Bounds for clone-line progress -/

lemma cloneProgressLoop_cons (s : String) (rest : List String) (acc : ℚ) (line : String) :
    cloneProgressLoop (s :: rest) acc line
      = if pyStartsWith s line then
          some ((acc + (match findPercent line.data with
            | some p => (p : ℚ) / 4
            | none => 0)) / 100)
        else cloneProgressLoop rest (acc + 25) line := rfl

lemma cloneProgressLoop_bound (line : String) :
    ∀ (phases : List String) (acc : ℚ), 0 ≤ acc →
      acc + 25 * phases.length ≤ 100 →
      (∀ p, findPercent line.data = some p → p ≤ 100) →
      ∀ q, cloneProgressLoop phases acc line = some q → 0 ≤ q ∧ q ≤ 1 := by
  intro phases
  induction phases with
  | nil =>
    intro acc _ _ _ q hq
    simp [cloneProgressLoop] at hq
  | cons s rest ih =>
    intro acc hacc hbound hp q hq
    rw [cloneProgressLoop_cons] at hq
    by_cases hpre : pyStartsWith s line
    · rw [if_pos hpre] at hq
      have hq2 : (acc + (match findPercent line.data with
          | some p => (p : ℚ) / 4
          | none => 0)) / 100 = q := Option.some.inj hq
      have hpct1 : 0 ≤ (match findPercent line.data with
          | some p => (p : ℚ) / 4
          | none => 0) := by
        cases hf : findPercent line.data with
        | none => exact le_refl 0
        | some p =>
          show (0 : ℚ) ≤ (p : ℚ) / 4
          positivity
      have hpct2 : (match findPercent line.data with
          | some p => (p : ℚ) / 4
          | none => 0) ≤ 25 := by
        cases hf : findPercent line.data with
        | none =>
          show (0 : ℚ) ≤ 25
          norm_num
        | some p =>
          show (p : ℚ) / 4 ≤ 25
          have hp100 : (p : ℚ) ≤ 100 := by exact_mod_cast hp p hf
          linarith
      have hacc75 : acc ≤ 75 := by
        rw [List.length_cons] at hbound
        push_cast at hbound
        have hL : (0 : ℚ) ≤ (rest.length : ℚ) := by positivity
        linarith
      refine ⟨?_, ?_⟩
      · rw [← hq2]
        positivity
      · rw [← hq2, div_le_one (by norm_num : (0 : ℚ) < 100)]
        linarith
    · rw [if_neg hpre] at hq
      refine ih (acc + 25) (by linarith) ?_ hp q hq
      rw [List.length_cons] at hbound
      push_cast at hbound ⊢
      linarith

/-! ## Claim theorems -/

/-- C8 (amended): for an identifier that contains no line-terminator
character and equals its own whitespace-stripped form, the marking
operation appends it to the persisted done-list only if it is not already
present, preserves freedom from duplicate entries, and marking the same
dependency twice leaves the same file content as marking it once.  (For
identifiers violating these conditions the claim fails; see the
counterexample.) -/
theorem mark_dependency_done_idempotent (c : Option (List Char)) (dep : List Char)
    (hnl : ∀ ch ∈ dep, isLineBreak ch = false) (hst : pyStrip dep = dep) :
    (dep ∈ depsOf c → mark_project_dependency_done c dep = c)
    ∧ mark_project_dependency_done (mark_project_dependency_done c dep) dep
        = mark_project_dependency_done c dep
    ∧ ((depsOf c).Nodup → (depsOf (mark_project_dependency_done c dep)).Nodup) := by
  refine ⟨?_, ?_, ?_⟩
  · intro h
    rw [mark_eq, if_pos h]
  · by_cases h : dep ∈ depsOf c
    · have h1 : mark_project_dependency_done c dep = c := by rw [mark_eq, if_pos h]
      rw [h1, h1]
    · by_cases hd : dep = []
      · subst hd
        have hm := depsOf_mark_empty_not_mem c h
        have h1 : mark_project_dependency_done c [] = some (joinNL (depsOf c ++ [[]])) := by
          rw [mark_eq, if_neg h]
        rw [mark_eq (mark_project_dependency_done c []) [], if_neg (by rw [hm]; exact h),
          hm, h1]
      · have hfd := depsOf_mark_of_not_mem c dep hd hnl hst h
        rw [mark_eq (mark_project_dependency_done c dep) dep, if_pos (by rw [hfd]; simp)]
  · intro hnd
    by_cases h : dep ∈ depsOf c
    · rw [mark_eq, if_pos h]
      exact hnd
    · by_cases hd : dep = []
      · subst hd
        rw [depsOf_mark_empty_not_mem c h]
        exact hnd
      · rw [depsOf_mark_of_not_mem c dep hd hnl hst h, List.nodup_append]
        refine ⟨hnd.filter _, List.nodup_singleton _, ?_⟩
        intro a ha hb
        have hb2 : a = dep := by simpa using hb
        subst hb2
        exact h ((List.mem_filter.mp ha).1)

/-- C8 counterexample: marking the identifier "a\nb" (which contains a line
terminator) twice on an empty environment produces different file content
than marking it once, and marking " a" on a file already holding "a"
produces a done-list with a duplicate entry — so the claim does not hold
for every dependency identifier. -/
theorem mark_dependency_done_newline_breaks_idempotence :
    mark_project_dependency_done
        (mark_project_dependency_done none ['a', '\n', 'b']) ['a', '\n', 'b']
      ≠ mark_project_dependency_done none ['a', '\n', 'b']
    ∧ ¬ (depsOf (mark_project_dependency_done (some ['a']) [' ', 'a'])).Nodup := by
  exact ⟨by decide, by decide⟩

/-- Witness for the amended C8 theorem at the identifier "a" on an empty
environment. -/
theorem mark_dependency_done_idempotent_witness :
    mark_project_dependency_done (mark_project_dependency_done none ['a']) ['a']
      = mark_project_dependency_done none ['a'] :=
  (mark_dependency_done_idempotent none ['a'] (by decide) (by decide)).2.1

/-- C1 counterexample: with an OSError injected on the marker-file read, the
dependency-completion task's outcome is the raw OSError — neither a failure
signal nor a cancellation signal — so the error escapes the task body
unconverted. -/
theorem markTask_io_error_escapes_raw :
    (markDependencyCompleteTaskRun ⟨some ['x'], some "Permission denied", none⟩ ['d']).1
      = .raw (.osError "Permission denied")
    ∧ ((markDependencyCompleteTaskRun
          ⟨some ['x'], some "Permission denied", none⟩ ['d']).1).isSignal = false := by
  exact ⟨rfl, rfl⟩

/-- C1 (amended): the dependency-completion marking task converts nothing at
its boundary — it settles SUCCESS when the marker I/O succeeds and
otherwise lets the OSError propagate raw (never a failure or cancellation
signal) — while the download task does convert its anticipated network
errors into failure signals and a cancellation during transfer into the
cancellation signal. -/
theorem leaf_task_error_conversion (io : MarkerIO) (dep : List Char)
    (sha256 : List Nat → String) (expected_hash : String) (w : DownloadWorld) :
    ((markDependencyCompleteTaskRun io dep).1.isSignal = false)
    ∧ (io.readErr = none → io.writeErr = none →
        (markDependencyCompleteTaskRun io dep).1 = .success)
    ∧ (w.destContent = none → w.fetch = .contentTooShortOrConn →
        (downloadAndValidateTaskRun sha256 expected_hash w).outcome
          = .failure "Download failed. Your network connection may have been interrupted.")
    ∧ (∀ m, w.destContent = none → w.fetch = .httpError m →
        (downloadAndValidateTaskRun sha256 expected_hash w).outcome
          = .failure ("Download failed.\n\n" ++ m))
    ∧ (∀ g r, w.destContent = none → w.fetch = .urlError g r →
        (downloadAndValidateTaskRun sha256 expected_hash w).outcome
          = .failure ("Download failed.\n\n" ++ g.getD r))
    ∧ (w.destContent = none → w.fetch = .cancelled →
        (downloadAndValidateTaskRun sha256 expected_hash w).outcome = .cancelled) := by
  refine ⟨?_, ?_, ?_, ?_, ?_, ?_⟩
  · rcases markRun_success_or_raw io dep with h | ⟨s, h⟩ <;> rw [h] <;> rfl
  · obtain ⟨c, re, we⟩ := io
    intro h1 h2
    dsimp only at h1 h2
    subst h1
    subst h2
    unfold markDependencyCompleteTaskRun
    rw [mark_io_no_errors]
  · intro h1 h2
    unfold downloadAndValidateTaskRun
    rw [h1, h2]
  · intro m h1 h2
    unfold downloadAndValidateTaskRun
    rw [h1, h2]
  · intro g r h1 h2
    unfold downloadAndValidateTaskRun
    rw [h1, h2]
  · intro h1 h2
    unfold downloadAndValidateTaskRun
    rw [h1, h2]

/-- Witness for the amended C1 theorem: a clean marker write settles SUCCESS
and a cancelled transfer settles CANCELLED. -/
theorem leaf_task_error_conversion_witness :
    (markDependencyCompleteTaskRun ⟨none, none, none⟩ ['a']).1 = .success
    ∧ (downloadAndValidateTaskRun (fun _ => "h") "h"
        ⟨none, .cancelled, none⟩).outcome = .cancelled := by
  refine ⟨?_, ?_⟩
  · exact (leaf_task_error_conversion ⟨none, none, none⟩ ['a'] (fun _ => "h") "h"
      ⟨none, .cancelled, none⟩).2.1 rfl rfl
  · exact (leaf_task_error_conversion ⟨none, none, none⟩ ['a'] (fun _ => "h") "h"
      ⟨none, .cancelled, none⟩).2.2.2.2.2 rfl rfl

/-- C2: if the destination file already exists when the download task runs,
the network is not consulted (cache hit); and in every run that reaches the
integrity check — cache hit, or completed download — the SHA-256 digest of
the destination is compared with the expected hash, and a match settles
SUCCESS. -/
theorem download_cache_hit_success (sha256 : List Nat → String) (expected_hash : String)
    (w : DownloadWorld) (data : List Nat) :
    (w.destContent = some data →
      (downloadAndValidateTaskRun sha256 expected_hash w).networkUsed = false)
    ∧ ((w.destContent = some data ∨ (w.destContent = none ∧ w.fetch = .ok data)) →
        w.readErr = none → sha256 data = expected_hash →
        (downloadAndValidateTaskRun sha256 expected_hash w).outcome = .success) := by
  constructor
  · intro h
    rw [downloadRun_cached sha256 expected_hash w data h]
    exact downloadCheck_networkUsed _ _ _ _ _ _
  · intro hdata hread hsha
    rcases hdata with h | ⟨h1, h2⟩
    · rw [downloadRun_cached sha256 expected_hash w data h, hread,
        downloadCheck_match sha256 expected_hash data false "cached" hsha]
    · rw [downloadRun_fetched sha256 expected_hash w data h1 h2, hread,
        downloadCheck_match sha256 expected_hash data true "downloaded" hsha]

/-- Witness for C2: with the destination cached and matching the hash, no
network use and SUCCESS. -/
theorem download_cache_hit_success_witness :
    (downloadAndValidateTaskRun (fun _ => "h") "h"
        ⟨some [1, 2], .contentTooShortOrConn, none⟩).networkUsed = false
    ∧ (downloadAndValidateTaskRun (fun _ => "h") "h"
        ⟨some [1, 2], .contentTooShortOrConn, none⟩).outcome = .success := by
  refine ⟨?_, ?_⟩
  · exact (download_cache_hit_success (fun _ => "h") "h"
      ⟨some [1, 2], .contentTooShortOrConn, none⟩ [1, 2]).1 rfl
  · exact (download_cache_hit_success (fun _ => "h") "h"
      ⟨some [1, 2], .contentTooShortOrConn, none⟩ [1, 2]).2 (Or.inl rfl) rfl rfl

/-- C3: whenever the computed digest of the destination file differs from the
expected hash, the download task settles FAILURE and the destination file
no longer exists after settling. -/
theorem download_hash_mismatch_deletes (sha256 : List Nat → String) (expected_hash : String)
    (w : DownloadWorld) (data : List Nat)
    (hdata : w.destContent = some data ∨ (w.destContent = none ∧ w.fetch = .ok data))
    (hread : w.readErr = none) (hdiff : sha256 data ≠ expected_hash) :
    (downloadAndValidateTaskRun sha256 expected_hash w).destContent = none
    ∧ ∃ fileSource,
        (downloadAndValidateTaskRun sha256 expected_hash w).outcome
          = .failure ("The " ++ fileSource
              ++ " file did not pass an integrity check, and was deleted.") := by
  rcases hdata with h | ⟨h1, h2⟩
  · rw [downloadRun_cached sha256 expected_hash w data h, hread,
      downloadCheck_mismatch sha256 expected_hash data false "cached" hdiff]
    exact ⟨rfl, "cached", rfl⟩
  · rw [downloadRun_fetched sha256 expected_hash w data h1 h2, hread,
      downloadCheck_mismatch sha256 expected_hash data true "downloaded" hdiff]
    exact ⟨rfl, "downloaded", rfl⟩

/-- Witness for C3 at a cached destination whose digest "g" differs from the
expected hash "h". -/
theorem download_hash_mismatch_deletes_witness :
    (downloadAndValidateTaskRun (fun _ => "g") "h"
        ⟨some [1], .cancelled, none⟩).destContent = none
    ∧ ∃ fileSource,
        (downloadAndValidateTaskRun (fun _ => "g") "h"
            ⟨some [1], .cancelled, none⟩).outcome
          = .failure ("The " ++ fileSource
              ++ " file did not pass an integrity check, and was deleted.") :=
  download_hash_mismatch_deletes (fun _ => "g") "h" ⟨some [1], .cancelled, none⟩ [1]
    (Or.inl rfl) rfl (by decide)

/-- C4 counterexample: on the final callback of a 10-byte transfer read in
8-byte blocks (block_count = 2, block_size = 8, file_size = 10), the
download task reports 16/10, which exceeds 1 — so the reported value is not
always in [0,1]. -/
theorem download_progress_exceeds_one :
    reportCallback false 2 8 10 = .ok (some ((2 * 8 : ℚ) / 10))
    ∧ (1 : ℚ) < (2 * 8 : ℚ) / 10 := by
  constructor
  · rfl
  · norm_num

/-- C4 (amended): progress values reported by the archive-extraction and
file-operation loops always lie in [0,1); the download callback's value is
non-negative and is at most 1 whenever the rounded-up transferred amount
block_count·block_size does not exceed the file size, but exceeds 1 on a
final partial block; a clone-output line's reported value lies in [0,1]
whenever the percentage parsed from the line is at most 100. -/
theorem progress_reports_normalized :
    (∀ (bc bs : Nat) (fs : Int) (q : ℚ), reportCallback false bc bs fs = .ok (some q) →
      0 ≤ q ∧ ((bc * bs : Int) ≤ fs → q ≤ 1))
    ∧ (∀ n : Nat, ∀ q ∈ progressValues (extractZipTrace false n), 0 ≤ q ∧ q < 1)
    ∧ (∀ (isFile : String → Bool) (base : String) (ops : List (List String)),
        ∀ q ∈ (runFileOps isFile false base ops).2.2, 0 ≤ q ∧ q < 1)
    ∧ (∀ (line : String) (q : ℚ), (∀ p, findPercent line.data = some p → p ≤ 100) →
        cloneLineProgress line = some q → 0 ≤ q ∧ q ≤ 1) := by
  refine ⟨?_, ?_, ?_, ?_⟩
  · intro bc bs fs q h
    unfold reportCallback at h
    rw [if_neg (by simp : ¬ (false = true))] at h
    by_cases hfs : fs ≤ 0
    · rw [if_pos hfs] at h
      simp at h
    · rw [if_neg hfs] at h
      have hq : ((bc : ℚ) * (bs : ℚ)) / (fs : ℚ) = q := by
        have := Option.some.inj (Except.ok.inj h)
        exact_mod_cast this
      have hfs2 : (0 : ℚ) < (fs : ℚ) := by
        exact_mod_cast lt_of_not_le hfs
      constructor
      · rw [← hq]
        positivity
      · intro hle
        rw [← hq, div_le_one hfs2]
        calc (bc : ℚ) * (bs : ℚ) = ((bc * bs : Int) : ℚ) := by push_cast; ring
          _ ≤ (fs : ℚ) := by exact_mod_cast hle
  · intro n q hq
    rw [extractZipTrace, extractZipGo_eq_bind, ← List.range_eq_range',
      progressValues_bind_pair] at hq
    rw [List.mem_map] at hq
    obtain ⟨j, hj, rfl⟩ := hq
    rw [List.mem_range] at hj
    have hn0 : 0 < n := by omega
    have hn : (0 : ℚ) < (n : ℚ) := by exact_mod_cast hn0
    refine ⟨by positivity, ?_⟩
    rw [div_lt_one hn]
    exact_mod_cast hj
  · intro isFile base ops q hq
    exact runFileOpsGo_reports_bound isFile base ops.length ops 0 (by omega) q hq
  · intro line q hp hq
    exact cloneProgressLoop_bound line progress_types 0 (le_refl 0)
      (by norm_num [progress_types]) hp q hq

/-- Witness for the amended C4 theorem: a mid-transfer callback value lies in
[0,1]. -/
theorem progress_reports_normalized_witness :
    (0 : ℚ) ≤ (1 : Nat) * (4 : Nat) / ((8 : Int) : ℚ)
    ∧ ((1 : Nat) : ℚ) * ((4 : Nat) : ℚ) / ((8 : Int) : ℚ) ≤ 1 := by
  have h := progress_reports_normalized.1 1 4 8
    (((1 : Nat) : ℚ) * ((4 : Nat) : ℚ) / ((8 : Int) : ℚ)) rfl
  exact ⟨by exact_mod_cast h.1, h.2 (by decide)⟩

/-- C5: extracting a zip archive with N ≥ 1 members reports progress i/N
immediately before extracting member i, for i = 0..N-1 (the trace is
exactly that interleaving), the reported progress sequence is monotonically
non-decreasing, and the final reported value is (N-1)/N. -/
theorem extractZip_progress_reports (memberCount : Nat) (h : 1 ≤ memberCount) :
    extractZipTrace false memberCount
      = (List.range memberCount).flatMap
          (fun i => [.progress ((i : ℚ) / (memberCount : ℚ)), .extractMember i])
    ∧ (progressValues (extractZipTrace false memberCount)).Chain' (· ≤ ·)
    ∧ (progressValues (extractZipTrace false memberCount)).getLast?
        = some (((memberCount : ℚ) - 1) / (memberCount : ℚ)) := by
  have hn : (0 : ℚ) < (memberCount : ℚ) := by exact_mod_cast h
  have htr : extractZipTrace false memberCount
      = (List.range memberCount).flatMap
          (fun i => [.progress ((i : ℚ) / (memberCount : ℚ)), .extractMember i]) := by
    rw [extractZipTrace, extractZipGo_eq_bind, ← List.range_eq_range']
  refine ⟨htr, ?_, ?_⟩
  · rw [htr, progressValues_bind_pair]
    apply List.Pairwise.chain'
    refine List.Pairwise.map _ ?_ (List.pairwise_lt_range memberCount)
    intro a b hab
    rw [div_le_div_iff_of_pos_right hn]
    exact_mod_cast le_of_lt hab
  · rw [htr, progressValues_bind_pair]
    obtain ⟨m, rfl⟩ : ∃ m, memberCount = m + 1 := ⟨memberCount - 1, by omega⟩
    rw [List.range_succ, List.map_append]
    rw [show (List.map (fun (j : Nat) => (j : ℚ) / ((m + 1 : Nat) : ℚ)) [m])
        = [((m : Nat) : ℚ) / ((m + 1 : Nat) : ℚ)] from rfl]
    rw [List.getLast?_concat]
    congr 1
    push_cast
    ring

/-- Witness for C5 at a three-member archive. -/
theorem extractZip_progress_reports_witness :
    (progressValues (extractZipTrace false 3)).getLast?
      = some ((((3 : Nat) : ℚ) - 1) / ((3 : Nat) : ℚ)) :=
  (extractZip_progress_reports 3 (by norm_num)).2.2

/-- C6: an operation entry whose operand count is wrong for its kind (delete
takes 1 operand, copy/move take 2) makes the task settle FAILURE as soon as
the loop reaches it, before that operation executes: no mutation event and
no progress report is produced from it onward; in particular a "delete"
with 2 operands as the whole operation list fails with no filesystem
mutation at all. -/
theorem fileOps_wrong_arity_fails_before_execution (isFile : String → Bool)
    (base : String) (n i : Nat) (name o0 : String) (os : List String)
    (rest : List (List String))
    (harity : (o0 :: os).length ≠ (if pyLower name = "delete" then 1 else 2)) :
    runFileOpsGo isFile false base n i ((name :: o0 :: os) :: rest)
      = (.failure ("Wrong number of parameters to \"" ++ pyLower name ++ "\" operation"),
          [], [])
    ∧ ∀ x y : String,
        runFileOps isFile false base [["delete", x, y]]
          = (.failure "Wrong number of parameters to \"delete\" operation", [], []) := by
  constructor
  · rw [runFileOpsGo_cons, if_pos (by rw [List.length_map]; exact harity)]
  · intro x y
    rfl

/-- Witness for C6: a "delete" with two operands fails with the
wrong-parameter-count message and performs no mutation. -/
theorem fileOps_wrong_arity_fails_before_execution_witness :
    runFileOpsGo (fun _ => false) false "b" 1 0 [["delete", "x", "y"]]
      = (.failure "Wrong number of parameters to \"delete\" operation", [], []) :=
  (fileOps_wrong_arity_fails_before_execution (fun _ => false) "b" 1 0
    "delete" "x" ["y"] [] (by decide)).1

/-- C9: an operation entry consisting of only the operation name (zero path
operands) makes the task body access `args[0]` before the operand-count
check, so a raw IndexError escapes the task body instead of the task
settling FAILURE with the wrong-parameter-count message. -/
theorem fileOps_missing_operand_raw_index_error (isFile : String → Bool) (base : String)
    (n i : Nat) (rest : List (List String)) :
    runFileOpsGo isFile false base n i (["delete"] :: rest) = (.raw .indexError, [], [])
    ∧ (runFileOps (fun _ => false) false "base" [["delete"]]).1
        ≠ .failure "Wrong number of parameters to \"delete\" operation" := by
  constructor
  · exact runFileOpsGo_no_operands isFile base n i "delete" rest
  · decide

/-- C7: when a clone-output line matches the phase at 0-based index k (and no
earlier phase) and the percentage regex finds the value p in it, the
reported progress is exactly (25·k + 0.25·p)/100. -/
theorem clone_progress_phase_formula (line : String) (k : Nat) (ph : String) (p : Nat)
    (hph : progress_types[k]? = some ph)
    (hpre : pyStartsWith ph line = true)
    (hfirst : ∀ j s, j < k → progress_types[j]? = some s → pyStartsWith s line = false)
    (hp : findPercent line.data = some p) :
    cloneLineProgress line = some ((25 * (k : ℚ) + (p : ℚ) / 4) / 100) := by
  have hk : k < 4 := by
    by_contra hk4
    rw [List.getElem?_eq_none (by simp [progress_types]; omega)] at hph
    exact Option.noConfusion hph
  unfold cloneLineProgress progress_types
  interval_cases k
  · have hph0 : "remote" = ph := by
      simpa [progress_types] using hph
    subst hph0
    rw [cloneProgressLoop_cons, if_pos hpre, hp]
    norm_num
  · have h0 : pyStartsWith "remote" line = false :=
      hfirst 0 "remote" (by norm_num) rfl
    have hph1 : "Receiving objects" = ph := by
      simpa [progress_types] using hph
    subst hph1
    rw [cloneProgressLoop_cons, if_neg (by simp [h0]),
      cloneProgressLoop_cons, if_pos hpre, hp]
    norm_num
  · have h0 : pyStartsWith "remote" line = false :=
      hfirst 0 "remote" (by norm_num) rfl
    have h1 : pyStartsWith "Receiving objects" line = false :=
      hfirst 1 "Receiving objects" (by norm_num) rfl
    have hph2 : "Resolving deltas" = ph := by
      simpa [progress_types] using hph
    subst hph2
    rw [cloneProgressLoop_cons, if_neg (by simp [h0]),
      cloneProgressLoop_cons, if_neg (by simp [h1]),
      cloneProgressLoop_cons, if_pos hpre, hp]
    norm_num
  · have h0 : pyStartsWith "remote" line = false :=
      hfirst 0 "remote" (by norm_num) rfl
    have h1 : pyStartsWith "Receiving objects" line = false :=
      hfirst 1 "Receiving objects" (by norm_num) rfl
    have h2 : pyStartsWith "Resolving deltas" line = false :=
      hfirst 2 "Resolving deltas" (by norm_num) rfl
    have hph3 : "Updating files" = ph := by
      simpa [progress_types] using hph
    subst hph3
    rw [cloneProgressLoop_cons, if_neg (by simp [h0]),
      cloneProgressLoop_cons, if_neg (by simp [h1]),
      cloneProgressLoop_cons, if_neg (by simp [h2]),
      cloneProgressLoop_cons, if_pos hpre, hp]
    norm_num

/-- Witness for C7 on the line "Receiving objects:  42% (1/3)": phase index 1
and percentage 42 give (25 + 10.5)/100. -/
theorem clone_progress_phase_formula_witness :
    cloneLineProgress "Receiving objects:  42% (1/3)"
      = some ((25 * ((1 : Nat) : ℚ) + ((42 : Nat) : ℚ) / 4) / 100) := by
  apply clone_progress_phase_formula "Receiving objects:  42% (1/3)" 1 "Receiving objects" 42
  · rfl
  · decide
  · intro j s hj hjs
    interval_cases j
    have hs : "remote" = s := by
      have h0 : progress_types[0]? = some "remote" := rfl
      rw [h0] at hjs
      exact Option.some.inj hjs
    rw [← hs]
    decide
  · decide

/-- C10: the file-operation task deep-copies its operation list at
construction: the stored snapshot has the same value as the caller's list,
an in-place mutation the caller makes afterwards through any of the
original inner lists leaves the snapshot unchanged, and two tasks
constructed from lists with equal contents run exactly the same operations
(same outcome, mutation events and progress reports). -/
theorem fileOps_deepcopy_isolation (h : PyHeap) (outer : List Nat)
    (hvalid : ∀ a ∈ outer, a < h.cells.length)
    (a : Nat) (ha : a ∈ outer) (v : List String)
    (h2 : PyHeap) (outer2 : List Nat)
    (heqv : readListOfLists h2 outer2 = readListOfLists h outer)
    (isFile : String → Bool) (base : String) :
    readListOfLists (deepcopyOps h outer).1 (deepcopyOps h outer).2
      = readListOfLists h outer
    ∧ readListOfLists (writeCell (deepcopyOps h outer).1 a v) (deepcopyOps h outer).2
        = readListOfLists (deepcopyOps h outer).1 (deepcopyOps h outer).2
    ∧ runFileOps isFile false base
        (readListOfLists (deepcopyOps h2 outer2).1 (deepcopyOps h2 outer2).2)
      = runFileOps isFile false base
          (readListOfLists (deepcopyOps h outer).1 (deepcopyOps h outer).2) := by
  refine ⟨readList_deepcopy h outer, ?_, ?_⟩
  · have haLen : a < h.cells.length := hvalid a ha
    unfold readListOfLists deepcopyOps writeCell
    rw [List.map_map, List.map_map]
    apply List.map_congr_left
    intro i _
    show readCell ⟨((h.cells ++ readListOfLists h outer).set a v)⟩ (i + h.cells.length)
      = readCell ⟨h.cells ++ readListOfLists h outer⟩ (i + h.cells.length)
    unfold readCell
    rw [List.getD_eq_getElem?_getD, List.getD_eq_getElem?_getD,
      List.getElem?_set_ne (by omega)]
  · rw [readList_deepcopy h2 outer2, readList_deepcopy h outer, heqv]

/-- Witness for C10: a concrete post-construction mutation of the original
inner list does not change the task's stored operations. -/
theorem fileOps_deepcopy_isolation_witness :
    readListOfLists
        (writeCell (deepcopyOps ⟨[["delete", "x"]]⟩ [0]).1 0 ["copy", "x", "y"])
        (deepcopyOps ⟨[["delete", "x"]]⟩ [0]).2
      = readListOfLists (deepcopyOps ⟨[["delete", "x"]]⟩ [0]).1
          (deepcopyOps ⟨[["delete", "x"]]⟩ [0]).2 :=
  (fileOps_deepcopy_isolation ⟨[["delete", "x"]]⟩ [0]
    (by
      intro a ha
      rw [List.mem_singleton] at ha
      subst ha
      decide)
    0 (List.mem_singleton.mpr rfl) ["copy", "x", "y"] ⟨[["delete", "x"]]⟩ [0] rfl
    (fun _ => false) "b").2.1

end Decomplicator
